import Mathlib

/-!
Verification of the FlavorLab relationship-graph search component.

The HTTP handlers (`get_entity_connections`, `get_relationship_path`,
`create_entity`) are embedded from `backend/app/api/entities.py`.
The graph-search service they call (`SearchService.get_entity_connections`,
`SearchService.find_relationship_path` in `backend/app/services/search.py`)
is not part of the source tree; it is modelled from the specification
(spec.md sections 4, 8 and 9): a level-by-level breadth-first search with a
visited set, traversing the directed edge store symmetrically, with the
shortest path by hop count returned in frontier insertion order.

Machine numerics: `confidence_score` is modelled with exact rationals; the
claims state exact decimal sums and averages, which the rational model
captures.
-/

namespace FlavorLab

/-- A directed relationship edge, from the data model
(`source_id`, `target_id`, `relationship_type`, `confidence_score`). -/
structure Edge where
  source_id : String
  target_id : String
  relationship_type : String
  confidence_score : ℚ
deriving DecidableEq

/-- A stored entity: `id`, `name`, `primary_classification`, a tag list.
A free-form attribute bag also exists in the source but carries no weight in
the graph search; it is kept as raw key-value pairs. -/
structure EntityRec where
  id : String
  name : String
  primary_classification : String
  classifications : List String
  attributes : List (String × String)
deriving DecidableEq

/-- The persistent stores the search reads: the keyed entity table and the
directed edge table.  Edges may dangle (no referential integrity enforced). -/
structure Graph where
  entities : List EntityRec
  edges : List Edge
deriving DecidableEq

/-- Lookup-by-id against the Entity Store (`get_entity(id) ≠ None`). -/
def entityExists (g : Graph) (eid : String) : Bool :=
  g.entities.any (fun e => e.id == eid)

namespace SearchService

/-- Modelled from the spec: the `relationship_types` filter of
`SearchService.get_entity_connections` (`search.py` is absent from the
tree); an unset filter traverses every edge, a set filter only edges whose
tag is listed. -/
def edgeAllowed (types : Option (List String)) (e : Edge) : Bool :=
  match types with
  | none => true
  | some ts => ts.contains e.relationship_type

/-- Modelled from the spec: the `neighbors(entity_id)` abstraction of
section 9 — outgoing and incoming edges merged, so the directed store is
traversed symmetrically. -/
def neighborIds (g : Graph) (types : Option (List String)) (x : String) : List String :=
  ((g.edges.filter (fun e => edgeAllowed types e && e.source_id == x)).map
      (fun e => e.target_id))
    ++ ((g.edges.filter (fun e => edgeAllowed types e && e.target_id == x)).map
      (fun e => e.source_id))

/-- Modelled from the spec: appending newly discovered entities in stable
order, skipping anything already visited or already discovered at this
level (visited set checked before enqueueing). -/
def addNew (visited acc : List String) : List String → List String
  | [] => acc
  | y :: ys =>
      if visited.contains y || acc.contains y then addNew visited acc ys
      else addNew visited (acc ++ [y]) ys

/-- Modelled from the spec: one breadth-first level of
`SearchService.get_entity_connections` — every frontier entity is expanded
through the merged neighbor sets, in frontier order. -/
def bfsLevel (g : Graph) (types : Option (List String)) (visited : List String) :
    List String → List String → List String
  | [], acc => acc
  | x :: xs, acc => bfsLevel g types visited xs (addNew visited acc (neighborIds g types x))

/-- Modelled from the spec: the depth-bounded level loop of
`SearchService.get_entity_connections` — at each remaining depth the next
level is discovered and appended to the visited set, entities grouped by
the depth at which they were first reached. -/
def bfsLoop (g : Graph) (types : Option (List String)) :
    Nat → List String → List String → List (List String)
  | 0, _, _ => []
  | d + 1, visited, frontier =>
      bfsLevel g types visited frontier [] ::
        bfsLoop g types d (visited ++ bfsLevel g types visited frontier [])
          (bfsLevel g types visited frontier [])

/-- Modelled from the spec: `SearchService.get_entity_connections` (absent
`search.py`) — `NotFound` when the entity id is absent, otherwise the
entities grouped by discovery depth (depth 0 being the start entity). -/
def get_entity_connections (g : Graph) (eid : String) (types : Option (List String))
    (maxDepth : Nat) : Except String (List (List String)) :=
  if entityExists g eid then
    Except.ok ([eid] :: bfsLoop g types maxDepth [eid] [eid])
  else
    Except.error ("Entity not found")

/-- Modelled from the spec: the symmetric neighbor step used by
`SearchService.find_relationship_path`, each neighbor paired with the edge
that reaches it. -/
def pathNeighbors (g : Graph) (x : String) : List (String × Edge) :=
  ((g.edges.filter (fun e => e.source_id == x)).map (fun e => (e.target_id, e)))
    ++ ((g.edges.filter (fun e => e.target_id == x)).map (fun e => (e.source_id, e)))

/-- Modelled from the spec: enqueueing the unvisited neighbors of one
dequeued node, each carrying the edge path reconstructed from its
predecessors; the visited set is checked before enqueueing. -/
def addNeighborPaths (visited : List String) (p : List Edge) :
    List (String × List Edge) → List (String × Edge) → List (String × List Edge)
  | acc, [] => acc
  | acc, (y, e) :: rest =>
      if visited.contains y || acc.any (fun q => q.1 == y) then
        addNeighborPaths visited p acc rest
      else
        addNeighborPaths visited p (acc ++ [(y, p ++ [e])]) rest

/-- Modelled from the spec: expansion of a whole breadth-first level of
`SearchService.find_relationship_path`, in frontier insertion order. -/
def expandLevel (g : Graph) (visited : List String) :
    List (String × List Edge) → List (String × List Edge) → List (String × List Edge)
  | acc, [] => acc
  | acc, (x, p) :: rest =>
      expandLevel g visited (addNeighborPaths visited p acc (pathNeighbors g x)) rest

/-- Modelled from the spec: scanning the frontier in insertion order for the
target; the first hit yields the path walked back through predecessors. -/
def findLevel (target : String) : List (String × List Edge) → Option (List Edge)
  | [] => none
  | (x, p) :: rest => if x == target then some p else findLevel target rest

/-- Modelled from the spec: the depth-bounded search loop of
`SearchService.find_relationship_path` — the target is recognised when
dequeued, otherwise the next level is expanded until the depth bound is
exhausted. -/
def findPathLoop (g : Graph) (target : String) :
    Nat → List String → List (String × List Edge) → Option (List Edge)
  | 0, _, frontier => findLevel target frontier
  | d + 1, visited, frontier =>
      match findLevel target frontier with
      | some p => some p
      | none =>
          findPathLoop g target d
            (visited ++ (expandLevel g visited [] frontier).map Prod.fst)
            (expandLevel g visited [] frontier)

/-- Modelled from the spec: `SearchService.find_relationship_path` (absent
`search.py`) — the explicit not-found outcome when either id is absent or no
path exists within the bound, otherwise the shortest path by hop count as
an ordered edge list. -/
def find_relationship_path (g : Graph) (sourceId targetId : String)
    (maxDepth : Nat) : Option (List Edge) :=
  if entityExists g sourceId && entityExists g targetId then
    findPathLoop g targetId maxDepth [sourceId] [(sourceId, [])]
  else
    none

end SearchService

/-- Sum of `confidence_score` along a path
(`sum(rel.confidence_score for rel in path)` in the handler). -/
def sumConfidence (p : List Edge) : ℚ :=
  (p.map (fun e => e.confidence_score)).sum

namespace Api

/-- Response of the connections endpoint: an HTTP status and, on success,
the entities grouped by depth. -/
structure ConnectionsResponse where
  status : Nat
  levels : List (List String)
deriving DecidableEq

/-- Handler `get_entity_connections` from `api/entities.py` (lines 379-417):
delegates to the search service and maps its error outcome to HTTP 404,
otherwise returns the connection structure with HTTP 200. -/
def get_entity_connections (g : Graph) (eid : String) (types : Option (List String))
    (maxDepth : Nat) : ConnectionsResponse :=
  match SearchService.get_entity_connections g eid types maxDepth with
  | Except.error _ => { status := 404, levels := [] }
  | Except.ok ls => { status := 200, levels := ls }

/-- Response of the path endpoint, mirroring the JSON shape built by the
handler (`source_id` and `target_id` echo the request and are omitted). -/
structure PathResponse where
  status : Nat
  found : Bool
  path : List Edge
  path_length : Nat
  total_confidence : Option ℚ
  avg_confidence : Option ℚ
deriving DecidableEq

/-- Handler `get_relationship_path` from `api/entities.py` (lines 420-466):
`None` from the service becomes the 200 `found=false` body with an empty
path; a returned path becomes the 200 `found=true` body with length, total
and average confidence — except that a zero-edge path makes
`sum(...) / len(path)` raise `ZeroDivisionError`, which the blanket
`except Exception` turns into HTTP 500. -/
def get_relationship_path (g : Graph) (entityId targetId : String)
    (maxDepth : Nat) : PathResponse :=
  match SearchService.find_relationship_path g entityId targetId maxDepth with
  | none =>
      { status := 200, found := false, path := [], path_length := 0,
        total_confidence := none, avg_confidence := none }
  | some p =>
      if p.length = 0 then
        { status := 500, found := false, path := [], path_length := 0,
          total_confidence := none, avg_confidence := none }
      else
        { status := 200, found := true, path := p, path_length := p.length,
          total_confidence := some (sumConfidence p),
          avg_confidence := some (sumConfidence p / (p.length : ℚ)) }

/-- The framework boundary of the connections route:
`max_depth: int = Query(2, ge=1, le=5)` rejects any integer outside
`[1, 5]` with a 422 validation error before the handler body runs. -/
def get_entity_connections_route (g : Graph) (eid : String)
    (types : Option (List String)) (maxDepth : Int) : ConnectionsResponse :=
  if 1 ≤ maxDepth ∧ maxDepth ≤ 5 then
    get_entity_connections g eid types maxDepth.toNat
  else
    { status := 422, levels := [] }

/-- The framework boundary of the path route:
`max_depth: int = Query(3, ge=1, le=5)` rejects any integer outside
`[1, 5]` with a 422 validation error before the handler body runs. -/
def get_relationship_path_route (g : Graph) (entityId targetId : String)
    (maxDepth : Int) : PathResponse :=
  if 1 ≤ maxDepth ∧ maxDepth ≤ 5 then
    get_relationship_path g entityId targetId maxDepth.toNat
  else
    { status := 422, found := false, path := [], path_length := 0,
      total_confidence := none, avg_confidence := none }

/-- Handler `create_entity` from `api/entities.py` (lines 536-589): a
duplicate id is rejected with HTTP 400 before anything is written; a
failure while inserting and committing (`db.add` / `db.commit`, modelled by
the `commitFails` oracle) is caught by the blanket except, `db.rollback()`
undoes the uncommitted insert, and HTTP 500 is returned with the store
unchanged; a failure after the commit — `db.refresh(entity)` or response
serialization at lines 578-580, modelled by the `postCommitFails` oracle —
is also caught and answered 500, but there `db.rollback()` cannot undo the
already-committed insert, so the entity stays in the store.  The result is
the HTTP status paired with the store after the request. -/
def create_entity (store : List EntityRec) (data : EntityRec)
    (commitFails postCommitFails : Bool) : Nat × List EntityRec :=
  if store.any (fun e => e.id == data.id) then
    (400, store)
  else if commitFails then
    (500, store)
  else if postCommitFails then
    (500, store ++ [data])
  else
    (200, store ++ [data])

end Api

/-- Validity of an edge list as an undirected chain from `s` to `t`: every
edge is in the store and joins the node reached so far to the next one, in
either direction. -/
def isPathChain (g : Graph) : String → String → List Edge → Bool
  | s, t, [] => s == t
  | s, t, e :: rest =>
      g.edges.contains e &&
        ((e.source_id == s && isPathChain g e.target_id t rest)
          || (e.target_id == s && isPathChain g e.source_id t rest))

/-- One step of symmetric reachability: every node adjacent (in either
direction) to the set, added to it. -/
def stepReach (g : Graph) (s : List String) : List String :=
  s ++ ((g.edges.filter (fun e => s.contains e.source_id)).map (fun e => e.target_id))
    ++ ((g.edges.filter (fun e => s.contains e.target_id)).map (fun e => e.source_id))

/-- Nodes reachable from `a` within `d` symmetric hops. -/
def reachSet (g : Graph) (a : String) : Nat → List String
  | 0 => [a]
  | d + 1 => stepReach g (reachSet g a d)

/-- Whether `t` is within `d` symmetric hops of `s` — the specification's
notion of a path existing within the depth bound. -/
def reachableWithin (g : Graph) (s t : String) (d : Nat) : Bool :=
  (reachSet g s d).contains t

/-- Entity `A` of the specification's example scenario. -/
def entA : EntityRec := { id := "A", name := "A", primary_classification := "ingredient",
                          classifications := [], attributes := [] }

/-- Entity `B` of the specification's example scenario. -/
def entB : EntityRec := { id := "B", name := "B", primary_classification := "nutrient",
                          classifications := [], attributes := [] }

/-- Entity `C` of the specification's example scenario. -/
def entC : EntityRec := { id := "C", name := "C", primary_classification := "compound",
                          classifications := [], attributes := [] }

/-- Edge `A→B`, type "contains", confidence 0.9. -/
def edgeAB : Edge := { source_id := "A", target_id := "B",
                       relationship_type := "contains", confidence_score := 9/10 }

/-- Edge `B→C`, type "found_in", confidence 0.7. -/
def edgeBC : Edge := { source_id := "B", target_id := "C",
                       relationship_type := "found_in", confidence_score := 7/10 }

/-- The example scenario graph of the specification: `A,B,C` with edges
`A→B` and `B→C`. -/
def exGraph : Graph := { entities := [entA, entB, entC], edges := [edgeAB, edgeBC] }

/-- A store holding only entity `A` and no edges. -/
def soloGraph : Graph := { entities := [entA], edges := [] }

/-- A graph with a cycle through `A` and parallel `A→B` edges. -/
def cycGraph : Graph :=
  { entities := [entA, entB, entC],
    edges := [edgeAB,
              { source_id := "A", target_id := "B",
                relationship_type := "paired_with", confidence_score := 1 },
              edgeBC,
              { source_id := "C", target_id := "A",
                relationship_type := "found_in", confidence_score := 1 }] }

end FlavorLab

namespace FlavorLab

open SearchService

theorem addNew_subset (visited : List String) (y : String) :
    ∀ (ys acc : List String), y ∈ acc → y ∈ addNew visited acc ys := by
  intro ys
  induction ys with
  | nil => intro acc h; simpa [addNew] using h
  | cons z zs ih =>
      intro acc h
      simp only [addNew]
      split
      · exact ih acc h
      · exact ih (acc ++ [z]) (by simp [h])

theorem addNew_mem (visited : List String) (y : String) (hnv : y ∉ visited) :
    ∀ (ys acc : List String), y ∈ ys → y ∈ addNew visited acc ys := by
  intro ys
  induction ys with
  | nil => intro acc hy; cases hy
  | cons z zs ih =>
      intro acc hy
      simp only [addNew]
      split
      · rename_i hcond
        rcases List.mem_cons.mp hy with hz | hz
        · subst hz
          rcases Bool.or_eq_true _ _ |>.mp hcond with hv | ha
          · exact absurd (by simpa using hv) hnv
          · exact addNew_subset visited y zs acc (by simpa using ha)
        · exact ih acc hz
      · rcases List.mem_cons.mp hy with hz | hz
        · subst hz
          exact addNew_subset visited y zs (acc ++ [y]) (by simp)
        · exact ih (acc ++ [z]) hz

theorem addNew_mem_of (visited : List String) (y : String) :
    ∀ (ys acc : List String), y ∈ addNew visited acc ys →
      y ∈ acc ∨ (y ∈ ys ∧ y ∉ visited) := by
  intro ys
  induction ys with
  | nil => intro acc h; exact Or.inl (by simpa [addNew] using h)
  | cons z zs ih =>
      intro acc h
      simp only [addNew] at h
      split at h
      · rcases ih acc h with h1 | h2
        · exact Or.inl h1
        · exact Or.inr ⟨List.mem_cons_of_mem _ h2.1, h2.2⟩
      · rename_i hcond
        rcases ih (acc ++ [z]) h with h1 | h2
        · rcases List.mem_append.mp h1 with ha | hz
          · exact Or.inl ha
          · have hyz : y = z := by simpa using hz
            subst hyz
            simp only [Bool.or_eq_true, not_or] at hcond
            exact Or.inr ⟨List.mem_cons_self _ _, by simpa using hcond.1⟩
        · exact Or.inr ⟨List.mem_cons_of_mem _ h2.1, h2.2⟩

theorem addNew_nodup (visited : List String) :
    ∀ (ys acc : List String), acc.Nodup → (addNew visited acc ys).Nodup := by
  intro ys
  induction ys with
  | nil => intro acc h; simpa [addNew] using h
  | cons z zs ih =>
      intro acc h
      simp only [addNew]
      split
      · exact ih acc h
      · rename_i hcond
        simp only [Bool.or_eq_true, not_or] at hcond
        have hz : z ∉ acc := by simpa using hcond.2
        exact ih (acc ++ [z]) (by simp [List.nodup_append, h, hz])

theorem bfsLevel_subset (g : Graph) (types : Option (List String))
    (visited : List String) (y : String) :
    ∀ (f acc : List String), y ∈ acc → y ∈ bfsLevel g types visited f acc := by
  intro f
  induction f with
  | nil => intro acc h; simpa [bfsLevel] using h
  | cons x xs ih =>
      intro acc h
      simp only [bfsLevel]
      exact ih _ (addNew_subset visited y _ acc h)

theorem bfsLevel_mem_of (g : Graph) (types : Option (List String))
    (visited : List String) (y : String) :
    ∀ (f acc : List String), y ∈ bfsLevel g types visited f acc →
      y ∈ acc ∨ y ∉ visited := by
  intro f
  induction f with
  | nil => intro acc h; exact Or.inl (by simpa [bfsLevel] using h)
  | cons x xs ih =>
      intro acc h
      simp only [bfsLevel] at h
      rcases ih _ h with h1 | h2
      · rcases addNew_mem_of visited y _ acc h1 with ha | hb
        · exact Or.inl ha
        · exact Or.inr hb.2
      · exact Or.inr h2

theorem bfsLevel_nodup (g : Graph) (types : Option (List String))
    (visited : List String) :
    ∀ (f acc : List String), acc.Nodup → (bfsLevel g types visited f acc).Nodup := by
  intro f
  induction f with
  | nil => intro acc h; simpa [bfsLevel] using h
  | cons x xs ih =>
      intro acc h
      simp only [bfsLevel]
      exact ih _ (addNew_nodup visited _ acc h)

theorem bfsLoop_flatten_nodup (g : Graph) (types : Option (List String)) :
    ∀ (d : Nat) (visited frontier : List String), visited.Nodup →
      (visited ++ (bfsLoop g types d visited frontier).flatten).Nodup := by
  intro d
  induction d with
  | zero => intro v f h; simpa [bfsLoop] using h
  | succ d ih =>
      intro v f h
      simp only [bfsLoop, List.flatten_cons]
      have hnx : (bfsLevel g types v f []).Nodup :=
        bfsLevel_nodup g types v f [] List.nodup_nil
      have hdisj : ∀ y ∈ bfsLevel g types v f [], y ∉ v := by
        intro y hy
        rcases bfsLevel_mem_of g types v y f [] hy with h1 | h2
        · cases h1
        · exact h2
      have hvn : (v ++ bfsLevel g types v f []).Nodup := by
        rw [List.nodup_append]
        exact ⟨h, hnx, fun a ha hb => hdisj a hb ha⟩
      have hrec := ih (v ++ bfsLevel g types v f []) (bfsLevel g types v f []) hvn
      simpa [List.append_assoc] using hrec

theorem bfsLoop_flatten_mono (g : Graph) (types : Option (List String)) (y : String) :
    ∀ (d k : Nat) (v f : List String),
      y ∈ (bfsLoop g types d v f).flatten → y ∈ (bfsLoop g types (d + k) v f).flatten := by
  intro d
  induction d with
  | zero => intro k v f h; simp [bfsLoop] at h
  | succ d ih =>
      intro k v f h
      have hrw : d + 1 + k = (d + k) + 1 := by omega
      rw [hrw]
      simp only [bfsLoop, List.flatten_cons] at h ⊢
      rcases List.mem_append.mp h with h1 | h2
      · exact List.mem_append.mpr (Or.inl h1)
      · exact List.mem_append.mpr (Or.inr (ih k _ _ h2))

end FlavorLab

namespace FlavorLab

open SearchService

theorem isPathChain_append (g : Graph) (e : Edge) :
    ∀ (p : List Edge) (s x y : String), isPathChain g s x p = true → e ∈ g.edges →
      ((e.source_id = x ∧ e.target_id = y) ∨ (e.target_id = x ∧ e.source_id = y)) →
      isPathChain g s y (p ++ [e]) = true := by
  intro p
  induction p with
  | nil =>
      intro s x y hc hm hj
      have hsx : s = x := by simpa [isPathChain] using hc
      subst hsx
      rcases hj with ⟨h1, h2⟩ | ⟨h1, h2⟩
      · simp [isPathChain, h1, h2, hm]
      · simp [isPathChain, h1, h2, hm]
  | cons e0 rest ih =>
      intro s x y hc hm hj
      simp only [isPathChain, Bool.and_eq_true, Bool.or_eq_true] at hc
      obtain ⟨hmem, hrest⟩ := hc
      simp only [List.cons_append, isPathChain, Bool.and_eq_true, Bool.or_eq_true]
      refine ⟨hmem, ?_⟩
      rcases hrest with ⟨h1, h2⟩ | ⟨h1, h2⟩
      · exact Or.inl ⟨h1, ih _ _ _ h2 hm hj⟩
      · exact Or.inr ⟨h1, ih _ _ _ h2 hm hj⟩

theorem pathNeighbors_mem (g : Graph) (x : String) (ye : String × Edge)
    (h : ye ∈ pathNeighbors g x) :
    ye.2 ∈ g.edges ∧
      ((ye.2.source_id = x ∧ ye.2.target_id = ye.1)
        ∨ (ye.2.target_id = x ∧ ye.2.source_id = ye.1)) := by
  unfold pathNeighbors at h
  rcases List.mem_append.mp h with h1 | h1
  · obtain ⟨e, hef, heq⟩ := List.mem_map.mp h1
    obtain ⟨hee, hcond⟩ := List.mem_filter.mp hef
    subst heq
    exact ⟨hee, Or.inl ⟨by simpa using hcond, rfl⟩⟩
  · obtain ⟨e, hef, heq⟩ := List.mem_map.mp h1
    obtain ⟨hee, hcond⟩ := List.mem_filter.mp hef
    subst heq
    exact ⟨hee, Or.inr ⟨by simpa using hcond, rfl⟩⟩

theorem addNeighborPaths_mem (visited : List String) (p : List Edge)
    (q : String × List Edge) :
    ∀ (ns : List (String × Edge)) (acc : List (String × List Edge)),
      q ∈ addNeighborPaths visited p acc ns →
      q ∈ acc ∨ ∃ ye ∈ ns, q = (ye.1, p ++ [ye.2]) := by
  intro ns
  induction ns with
  | nil => intro acc h; exact Or.inl (by simpa [addNeighborPaths] using h)
  | cons ye rest ih =>
      intro acc h
      obtain ⟨y, e⟩ := ye
      simp only [addNeighborPaths] at h
      split at h
      · rcases ih acc h with h1 | ⟨w, hw, hq⟩
        · exact Or.inl h1
        · exact Or.inr ⟨w, List.mem_cons_of_mem _ hw, hq⟩
      · rcases ih (acc ++ [(y, p ++ [e])]) h with h1 | ⟨w, hw, hq⟩
        · rcases List.mem_append.mp h1 with ha | hb
          · exact Or.inl ha
          · have hq : q = (y, p ++ [e]) := by simpa using hb
            exact Or.inr ⟨(y, e), List.mem_cons_self _ _, hq⟩
        · exact Or.inr ⟨w, List.mem_cons_of_mem _ hw, hq⟩

theorem expandLevel_mem (g : Graph) (visited : List String) (q : String × List Edge) :
    ∀ (f acc : List (String × List Edge)),
      q ∈ expandLevel g visited acc f →
      q ∈ acc ∨ ∃ xp ∈ f, ∃ ye ∈ pathNeighbors g xp.1, q = (ye.1, xp.2 ++ [ye.2]) := by
  intro f
  induction f with
  | nil => intro acc h; exact Or.inl (by simpa [expandLevel] using h)
  | cons xp rest ih =>
      intro acc h
      obtain ⟨x, p⟩ := xp
      simp only [expandLevel] at h
      rcases ih _ h with h1 | ⟨w, hw, hy⟩
      · rcases addNeighborPaths_mem visited p q _ acc h1 with ha | ⟨ye, hye, hq⟩
        · exact Or.inl ha
        · exact Or.inr ⟨(x, p), List.mem_cons_self _ _, ye, hye, hq⟩
      · exact Or.inr ⟨w, List.mem_cons_of_mem _ hw, hy⟩

theorem findLevel_mem (t : String) :
    ∀ (f : List (String × List Edge)) (p : List Edge),
      findLevel t f = some p → (t, p) ∈ f := by
  intro f
  induction f with
  | nil => intro p h; simp [findLevel] at h
  | cons xp rest ih =>
      intro p h
      obtain ⟨x, q⟩ := xp
      simp only [findLevel] at h
      split at h
      · rename_i hx
        have hxt : x = t := by simpa using hx
        subst hxt
        injection h with h
        subst h
        exact List.mem_cons_self _ _
      · exact List.mem_cons_of_mem _ (ih p h)

theorem findPathLoop_sound (g : Graph) (s t : String) :
    ∀ (fuel : Nat) (v : List String) (f : List (String × List Edge))
      (k : Nat) (p : List Edge),
      (∀ xp ∈ f, isPathChain g s xp.1 xp.2 = true ∧ xp.2.length ≤ k) →
      findPathLoop g t fuel v f = some p →
      isPathChain g s t p = true ∧ p.length ≤ k + fuel := by
  intro fuel
  induction fuel with
  | zero =>
      intro v f k p hf h
      simp only [findPathLoop] at h
      have hm := findLevel_mem t f p h
      simpa using hf _ hm
  | succ d ih =>
      intro v f k p hf h
      simp only [findPathLoop] at h
      cases hfl : findLevel t f with
      | some q =>
          rw [hfl] at h
          injection h with h
          have h2 := hf _ (findLevel_mem t f q hfl)
          rw [h] at h2
          have hch : isPathChain g s t p = true := h2.1
          have hlen : p.length ≤ k := h2.2
          exact ⟨hch, by omega⟩
      | none =>
          rw [hfl] at h
          have hnext : ∀ xp ∈ expandLevel g v [] f,
              isPathChain g s xp.1 xp.2 = true ∧ xp.2.length ≤ k + 1 := by
            intro xp hxp
            rcases expandLevel_mem g v xp f [] hxp with h1 | ⟨w, hw, ye, hye, hq⟩
            · cases h1
            · obtain ⟨hw1, hw2⟩ := hf w hw
              obtain ⟨hee, hj⟩ := pathNeighbors_mem g w.1 ye hye
              subst hq
              refine ⟨isPathChain_append g ye.2 w.2 s w.1 ye.1 hw1 hee hj, ?_⟩
              simp only [List.length_append, List.length_cons, List.length_nil]
              omega
          have hrec := ih (v ++ (expandLevel g v [] f).map Prod.fst)
            (expandLevel g v [] f) (k + 1) p hnext h
          exact ⟨hrec.1, by omega⟩

theorem find_path_sound (g : Graph) (s t : String) (d : Nat) (p : List Edge)
    (h : SearchService.find_relationship_path g s t d = some p) :
    isPathChain g s t p = true ∧ p.length ≤ d := by
  unfold SearchService.find_relationship_path at h
  split at h
  · have hbase : ∀ xp ∈ [((s, []) : String × List Edge)],
        isPathChain g s xp.1 xp.2 = true ∧ xp.2.length ≤ 0 := by
      intro xp hxp
      have hx : xp = (s, []) := by simpa using hxp
      subst hx
      exact ⟨by simp [isPathChain], by simp⟩
    have hres := findPathLoop_sound g s t d [s] [(s, [])] 0 p hbase h
    simpa using hres
  · cases h

theorem find_path_self (g : Graph) (a : String) (k : Nat)
    (ha : entityExists g a = true) :
    SearchService.find_relationship_path g a a k = some [] := by
  unfold SearchService.find_relationship_path
  simp only [ha, Bool.and_self, if_true]
  cases k with
  | zero => simp [findPathLoop, findLevel]
  | succ d => simp [findPathLoop, findLevel]

end FlavorLab

namespace FlavorLab

theorem stepReach_subset (g : Graph) (s : List String) (y : String) (h : y ∈ s) :
    y ∈ stepReach g s := by
  simp [stepReach, h]

theorem stepReach_mono (g : Graph) (s s2 : List String)
    (hss : ∀ z, z ∈ s → z ∈ s2) (y : String) (h : y ∈ stepReach g s) :
    y ∈ stepReach g s2 := by
  simp only [stepReach, List.mem_append, List.mem_map, List.mem_filter] at h ⊢
  rcases h with (h | h) | h
  · exact Or.inl (Or.inl (hss _ h))
  · obtain ⟨e, ⟨he, hc⟩, heq⟩ := h
    refine Or.inl (Or.inr ⟨e, ⟨he, ?_⟩, heq⟩)
    have hmem : e.source_id ∈ s := by simpa using hc
    simpa using hss _ hmem
  · obtain ⟨e, ⟨he, hc⟩, heq⟩ := h
    refine Or.inr ⟨e, ⟨he, ?_⟩, heq⟩
    have hmem : e.target_id ∈ s := by simpa using hc
    simpa using hss _ hmem

theorem reachSet_self (g : Graph) (a : String) : ∀ d, a ∈ reachSet g a d := by
  intro d
  induction d with
  | zero => simp [reachSet]
  | succ d ih => exact stepReach_subset g _ a ih

theorem edge_step (g : Graph) (e : Edge) (he : e ∈ g.edges) (s : List String)
    (x y : String) (hx : x ∈ s)
    (hj : (e.source_id = x ∧ e.target_id = y) ∨ (e.target_id = x ∧ e.source_id = y)) :
    y ∈ stepReach g s := by
  simp only [stepReach, List.mem_append, List.mem_map, List.mem_filter]
  rcases hj with ⟨h1, h2⟩ | ⟨h1, h2⟩
  · exact Or.inl (Or.inr ⟨e, ⟨he, by simp [h1, hx]⟩, h2⟩)
  · exact Or.inr ⟨e, ⟨he, by simp [h1, hx]⟩, h2⟩

theorem reachSet_shift (g : Graph) (a nxt : String) (hn : nxt ∈ stepReach g [a]) :
    ∀ (d : Nat) (y : String), y ∈ reachSet g nxt d → y ∈ reachSet g a (d + 1) := by
  intro d
  induction d with
  | zero =>
      intro y hy
      have hyn : y = nxt := by simpa [reachSet] using hy
      subst hyn
      simpa [reachSet] using hn
  | succ d ih =>
      intro y hy
      simp only [reachSet] at hy ⊢
      exact stepReach_mono g _ _ (fun z hz => ih z hz) y hy

theorem chain_reachable (g : Graph) :
    ∀ (p : List Edge) (s t : String) (d : Nat),
      isPathChain g s t p = true → p.length ≤ d → t ∈ reachSet g s d := by
  intro p
  induction p with
  | nil =>
      intro s t d hc _
      have hst : s = t := by simpa [isPathChain] using hc
      subst hst
      exact reachSet_self g s d
  | cons e rest ih =>
      intro s t d hc hl
      simp only [isPathChain, Bool.and_eq_true, Bool.or_eq_true] at hc
      obtain ⟨hme, hrest⟩ := hc
      have hmem : e ∈ g.edges := by simpa using hme
      obtain ⟨d1, rfl⟩ : ∃ d1, d = d1 + 1 := by
        cases d with
        | zero => simp at hl
        | succ n => exact ⟨n, rfl⟩
      have hl1 : rest.length ≤ d1 := by
        simp only [List.length_cons] at hl
        omega
      rcases hrest with ⟨h1, h2⟩ | ⟨h1, h2⟩
      · have hs : e.source_id = s := by simpa using h1
        have hrec := ih e.target_id t d1 h2 hl1
        refine reachSet_shift g s e.target_id ?_ d1 t hrec
        exact edge_step g e hmem [s] s e.target_id (by simp) (Or.inl ⟨hs, rfl⟩)
      · have hs : e.target_id = s := by simpa using h1
        have hrec := ih e.source_id t d1 h2 hl1
        refine reachSet_shift g s e.source_id ?_ d1 t hrec
        exact edge_step g e hmem [s] s e.source_id (by simp) (Or.inr ⟨hs, rfl⟩)

end FlavorLab

namespace FlavorLab

theorem target_mem_neighborIds (g : Graph) (e : Edge) (he : e ∈ g.edges) :
    e.target_id ∈ SearchService.neighborIds g none e.source_id := by
  unfold SearchService.neighborIds
  refine List.mem_append.mpr (Or.inl ?_)
  exact List.mem_map.mpr
    ⟨e, List.mem_filter.mpr ⟨he, by simp [SearchService.edgeAllowed]⟩, rfl⟩

theorem source_mem_neighborIds (g : Graph) (e : Edge) (he : e ∈ g.edges) :
    e.source_id ∈ SearchService.neighborIds g none e.target_id := by
  unfold SearchService.neighborIds
  refine List.mem_append.mpr (Or.inr ?_)
  exact List.mem_map.mpr
    ⟨e, List.mem_filter.mpr ⟨he, by simp [SearchService.edgeAllowed]⟩, rfl⟩

theorem mem_connections_depth1 (g : Graph) (x y : String)
    (hx : entityExists g x = true) (hy : y ∈ SearchService.neighborIds g none x) :
    y ∈ ((Api.get_entity_connections g x none 1).levels).flatten := by
  unfold Api.get_entity_connections SearchService.get_entity_connections
  simp only [hx, if_true]
  by_cases hxy : y = x
  · subst hxy; simp
  · have hmem : y ∈ SearchService.bfsLevel g none [x] [x] [] := by
      simp only [SearchService.bfsLevel]
      exact addNew_mem [x] y (by simp [hxy]) _ [] hy
    have hloop : SearchService.bfsLoop g none 1 [x] [x]
        = [SearchService.bfsLevel g none [x] [x] []] := rfl
    simp [hloop, hmem]

theorem connections_status_ne_422 (g : Graph) (eid : String)
    (types : Option (List String)) (d : Nat) :
    (Api.get_entity_connections g eid types d).status ≠ 422 := by
  unfold Api.get_entity_connections
  cases SearchService.get_entity_connections g eid types d <;> simp

theorem path_status_ne_422 (g : Graph) (s t : String) (d : Nat) :
    (Api.get_relationship_path g s t d).status ≠ 422 := by
  unfold Api.get_relationship_path
  cases SearchService.find_relationship_path g s t d with
  | none => simp
  | some p => by_cases h : p.length = 0 <;> simp [h]

/-- C1: for every graph, source, target and depth bound in `[1,5]`, when no
path between the two entities exists within `max_depth` symmetric hops, the
path endpoint returns HTTP 200 with `found=false`, an empty path array and
`path_length` 0 — never an error status. -/
theorem pathEndpointNoPath (g : Graph) (s t : String) (d : Nat)
    (_hd1 : 1 ≤ d) (_hd5 : d ≤ 5) (hno : reachableWithin g s t d = false) :
    Api.get_relationship_path g s t d =
      { status := 200, found := false, path := [], path_length := 0,
        total_confidence := none, avg_confidence := none } := by
  unfold Api.get_relationship_path
  cases hfp : SearchService.find_relationship_path g s t d with
  | none => rfl
  | some p =>
      exfalso
      obtain ⟨hc, hl⟩ := find_path_sound g s t d p hfp
      have hreach := chain_reachable g p s t d hc hl
      unfold reachableWithin at hno
      have hcontains : (reachSet g s d).contains t = true := by simpa using hreach
      rw [hcontains] at hno
      cases hno

/-- C1 witness: in the example graph `C` is two hops from `A`, so with
`max_depth=1` no path exists and the endpoint answers 200 / found=false. -/
theorem pathEndpointNoPathWitness :
    reachableWithin exGraph ("A") ("C") 1 = false ∧
    Api.get_relationship_path exGraph ("A") ("C") 1 =
      { status := 200, found := false, path := [], path_length := 0,
        total_confidence := none, avg_confidence := none } := by
  refine ⟨by decide, ?_⟩
  exact pathEndpointNoPath exGraph ("A") ("C") 1 (by decide) (by decide) (by decide)

/-- C2: every found path is returned as the ordered edge list from source to
target (a valid chain within the depth bound), with `path_length` the edge
count, `total_confidence` the sum of the confidence scores, and
`avg_confidence` the total divided by the edge count. -/
theorem pathEndpointFoundStats (g : Graph) (s t : String) (d : Nat) (p : List Edge)
    (hfp : SearchService.find_relationship_path g s t d = some p) (hne : p ≠ []) :
    Api.get_relationship_path g s t d =
      { status := 200, found := true, path := p, path_length := p.length,
        total_confidence := some (sumConfidence p),
        avg_confidence := some (sumConfidence p / (p.length : ℚ)) } ∧
    isPathChain g s t p = true ∧ p.length ≤ d := by
  refine ⟨?_, find_path_sound g s t d p hfp⟩
  unfold Api.get_relationship_path
  rw [hfp]
  have hlen : ¬ p.length = 0 := by simpa using hne
  simp [hlen]

/-- C2 witness: the specification's example — `A→B` (0.9) and `B→C` (0.7),
`find_path(A, C, 2)` finds the two-edge path with total confidence 1.6 and
average 0.8. -/
theorem pathEndpointFoundStatsWitness :
    SearchService.find_relationship_path exGraph ("A") ("C") 2
      = some [edgeAB, edgeBC] ∧
    Api.get_relationship_path exGraph ("A") ("C") 2 =
      { status := 200, found := true, path := [edgeAB, edgeBC], path_length := 2,
        total_confidence := some ((16 : ℚ)/10),
        avg_confidence := some ((8 : ℚ)/10) } := by
  have hfp : SearchService.find_relationship_path exGraph ("A") ("C") 2
      = some [edgeAB, edgeBC] := rfl
  have h := (pathEndpointFoundStats exGraph ("A") ("C") 2 [edgeAB, edgeBC] hfp
    (by simp)).1
  refine ⟨hfp, ?_⟩
  rw [h]
  norm_num [sumConfidence, edgeAB, edgeBC]

/-- C3 counterexample: with source = target the search returns the trivial
zero-edge path, and the handler errors (HTTP 500) because the
average-confidence computation divides by the zero edge count — the claim
that it returns a well-defined trivial result without error fails. -/
theorem pathSelfCounterexample :
    SearchService.find_relationship_path exGraph ("A") ("A") 3 = some [] ∧
    (Api.get_relationship_path exGraph ("A") ("A") 3).status = 500 ∧
    ¬ (Api.get_relationship_path exGraph ("A") ("A") 3).status = 200 := by
  decide

/-- C3 amended: for every stored entity `a` and depth `k ≥ 1`,
`find_path(a, a, k)` returns the trivial zero-length path, but the handler's
average-confidence computation then divides by zero, so the endpoint reports
HTTP 500 instead of a well-defined trivial result. -/
theorem pathSelfDividesByZero (g : Graph) (a : String) (k : Nat)
    (ha : entityExists g a = true) (_hk : 1 ≤ k) :
    SearchService.find_relationship_path g a a k = some [] ∧
    (Api.get_relationship_path g a a k).status = 500 := by
  have h1 := find_path_self g a k ha
  refine ⟨h1, ?_⟩
  unfold Api.get_relationship_path
  rw [h1]
  simp

/-- C3 amended witness: the self-path request for `B` at depth 2. -/
theorem pathSelfDividesByZeroWitness :
    SearchService.find_relationship_path exGraph ("B") ("B") 2 = some [] ∧
    (Api.get_relationship_path exGraph ("B") ("B") 2).status = 500 :=
  pathSelfDividesByZero exGraph ("B") 2 (by decide) (by decide)

/-- C4 counterexample: the path endpoint never reports an unresolved
source/target as 404 — with target `B` absent from the store it answers
HTTP 200 (the found=false body), not 404. -/
theorem pathMissingEntityCounterexample :
    entityExists soloGraph ("B") = false ∧
    (Api.get_relationship_path soloGraph ("A") ("B") 3).status = 200 ∧
    ¬ (Api.get_relationship_path soloGraph ("A") ("B") 3).status = 404 := by
  decide

/-- C4 amended: for every request to the path endpoint in which the source
id or the target id does not resolve to a stored entity, the endpoint
returns the HTTP 200 `found=false` no-path response — it never returns 404
for that case. -/
theorem pathMissingEntityReturns200 (g : Graph) (s t : String) (d : Nat)
    (h : entityExists g s = false ∨ entityExists g t = false) :
    Api.get_relationship_path g s t d =
      { status := 200, found := false, path := [], path_length := 0,
        total_confidence := none, avg_confidence := none } := by
  unfold Api.get_relationship_path SearchService.find_relationship_path
  have hand : (entityExists g s && entityExists g t) = false := by
    rcases h with h | h <;> simp [h]
  simp [hand]

/-- C4 amended witness: source `B` absent from the single-entity store. -/
theorem pathMissingEntityReturns200Witness :
    Api.get_relationship_path soloGraph ("B") ("A") 2 =
      { status := 200, found := false, path := [], path_length := 0,
        total_confidence := none, avg_confidence := none } :=
  pathMissingEntityReturns200 soloGraph ("B") ("A") 2 (Or.inl (by decide))

/-- C5: both routes reject every integer `max_depth` outside `[1,5]` with a
422 validation error before the handler runs, and pass every in-range value
to the handler, whose statuses are never the validation status. -/
theorem maxDepthBoundaryValidation (g : Graph) (eid tid : String)
    (types : Option (List String)) (d : Int) :
    ((Api.get_entity_connections_route g eid types d).status =
        if 1 ≤ d ∧ d ≤ 5 then (Api.get_entity_connections g eid types d.toNat).status
        else 422) ∧
    ((Api.get_relationship_path_route g eid tid d).status =
        if 1 ≤ d ∧ d ≤ 5 then (Api.get_relationship_path g eid tid d.toNat).status
        else 422) ∧
    (Api.get_entity_connections g eid types d.toNat).status ≠ 422 ∧
    (Api.get_relationship_path g eid tid d.toNat).status ≠ 422 := by
  refine ⟨?_, ?_, connections_status_ne_422 g eid types d.toNat,
    path_status_ne_422 g eid tid d.toNat⟩
  · unfold Api.get_entity_connections_route
    by_cases h : 1 ≤ d ∧ d ≤ 5 <;> simp [h]
  · unfold Api.get_relationship_path_route
    by_cases h : 1 ≤ d ∧ d ≤ 5 <;> simp [h]

/-- C6: the connections endpoint answers 404 exactly when the entity id does
not resolve to a stored entity, and 200 (a connections structure, never an
error) for every stored entity — including one with no relationships. -/
theorem connectionsStatusByExistence (g : Graph) (eid : String)
    (types : Option (List String)) (d : Nat) :
    (Api.get_entity_connections g eid types d).status =
      (if entityExists g eid then 200 else 404) := by
  unfold Api.get_entity_connections SearchService.get_entity_connections
  by_cases h : entityExists g eid <;> simp [h]

/-- C7: for every graph — cycles and parallel edges through the start entity
included — the depth-5 connections search is a total function and no entity
appears more than once in its output. -/
theorem connectionsNoDuplicates (g : Graph) (eid : String)
    (types : Option (List String)) :
    ((Api.get_entity_connections g eid types 5).levels).flatten.Nodup := by
  unfold Api.get_entity_connections SearchService.get_entity_connections
  by_cases h : entityExists g eid
  · simp only [h, if_true]
    have hn := bfsLoop_flatten_nodup g types 5 [eid] [eid] (List.nodup_singleton eid)
    simpa using hn
  · simp [h]

/-- C8: for every stored directed edge `x→y` whose endpoints are stored
entities, `y` appears in `get_connections(x, 1)` and `x` appears in
`get_connections(y, 1)` — traversal is direction-agnostic. -/
theorem connectionsSymmetric (g : Graph) (e : Edge) (he : e ∈ g.edges)
    (hs : entityExists g e.source_id = true) (ht : entityExists g e.target_id = true) :
    e.target_id ∈ ((Api.get_entity_connections g e.source_id none 1).levels).flatten ∧
    e.source_id ∈ ((Api.get_entity_connections g e.target_id none 1).levels).flatten :=
  ⟨mem_connections_depth1 g e.source_id e.target_id hs (target_mem_neighborIds g e he),
   mem_connections_depth1 g e.target_id e.source_id ht (source_mem_neighborIds g e he)⟩

/-- C8 witness: edge `A→B` of the cyclic graph, traversed in both
directions. -/
theorem connectionsSymmetricWitness :
    ("B" : String) ∈ ((Api.get_entity_connections cycGraph ("A") none 1).levels).flatten ∧
    ("A" : String) ∈ ((Api.get_entity_connections cycGraph ("B") none 1).levels).flatten := by
  have h := connectionsSymmetric cycGraph edgeAB (List.mem_cons_self _ _)
    (by decide) (by decide)
  simpa [edgeAB] using h

/-- C9: for every entity and depth bounds `d1 < d2` in `[1,5]`, the entity
set returned at depth `d1` is a subset of the set returned at depth `d2`. -/
theorem connectionsMonotone (g : Graph) (eid : String) (types : Option (List String))
    (d1 d2 : Nat) (_h1 : 1 ≤ d1) (h12 : d1 < d2) (_h5 : d2 ≤ 5) (y : String)
    (hy : y ∈ ((Api.get_entity_connections g eid types d1).levels).flatten) :
    y ∈ ((Api.get_entity_connections g eid types d2).levels).flatten := by
  unfold Api.get_entity_connections SearchService.get_entity_connections at hy ⊢
  by_cases h : entityExists g eid
  · simp only [h, if_true] at hy ⊢
    simp only [List.flatten_cons] at hy ⊢
    rcases List.mem_append.mp hy with ha | hb
    · exact List.mem_append.mpr (Or.inl ha)
    · have hmono := bfsLoop_flatten_mono g types y d1 (d2 - d1) [eid] [eid] hb
      rw [Nat.add_sub_cancel' (le_of_lt h12)] at hmono
      exact List.mem_append.mpr (Or.inr hmono)
  · simp [h] at hy

/-- C9 witness: `B` is reached from `A` at depth 1 in the example graph and
is still present at depth 2. -/
theorem connectionsMonotoneWitness :
    ("B" : String) ∈ ((Api.get_entity_connections exGraph ("A") none 1).levels).flatten ∧
    ("B" : String) ∈ ((Api.get_entity_connections exGraph ("A") none 2).levels).flatten := by
  have h1 : ("B" : String) ∈ ((Api.get_entity_connections exGraph ("A") none 1).levels).flatten := by
    decide
  exact ⟨h1, connectionsMonotone exGraph ("A") none 1 2 (by decide) (by decide)
    (by decide) ("B") h1⟩

/-- C10 counterexample: a failure after `db.commit` (`db.refresh` or
response serialization, entities.py:578-580) is answered 500 — a failed
create — yet the entity is already committed and stays in the store, so a
failed create can leave a created entity behind, refuting the claim that
every failure during creation is rolled back. -/
theorem createEntityPostCommitCounterexample :
    (Api.create_entity [entA] entB false true).1 = 500 ∧
    ¬ (Api.create_entity [entA] entB false true).2 = [entA] ∧
    entB ∈ (Api.create_entity [entA] entB false true).2 := by
  decide

/-- C10 amended: a create request whose id equals a stored entity's id fails
with HTTP 400 and leaves the store unchanged; a failure while inserting and
committing is rolled back, also leaving the store unchanged; but a failure
after the commit (`db.refresh` or response serialization) is reported as 500
with the entity already committed to the store. -/
theorem createEntityAtomicAmended (store : List EntityRec) (data : EntityRec)
    (commitFails postCommitFails : Bool) :
    (store.any (fun e => e.id == data.id) = true →
      Api.create_entity store data commitFails postCommitFails = (400, store)) ∧
    (store.any (fun e => e.id == data.id) = false → commitFails = true →
      Api.create_entity store data commitFails postCommitFails = (500, store)) ∧
    (store.any (fun e => e.id == data.id) = false → commitFails = false →
      postCommitFails = true →
      Api.create_entity store data commitFails postCommitFails
        = (500, store ++ [data])) := by
  refine ⟨?_, ?_, ?_⟩
  · intro h
    unfold Api.create_entity
    simp [h]
  · intro h1 h2
    unfold Api.create_entity
    simp [h1, h2]
  · intro h1 h2 h3
    unfold Api.create_entity
    simp [h1, h2, h3]

/-- C10 amended witness: a duplicate of `A` is rejected with 400 and the
store kept; a commit failure on a fresh entity keeps the store; a
post-commit failure returns 500 with the fresh entity committed. -/
theorem createEntityAtomicAmendedWitness :
    Api.create_entity [entA] entA false false = (400, [entA]) ∧
    Api.create_entity [entA] entB true false = (500, [entA]) ∧
    Api.create_entity [entA] entB false true = (500, [entA, entB]) :=
  ⟨(createEntityAtomicAmended [entA] entA false false).1 (by decide),
   (createEntityAtomicAmended [entA] entB true false).2.1 (by decide) rfl,
   (createEntityAtomicAmended [entA] entB false true).2.2 (by decide) rfl rfl⟩

end FlavorLab
